import Mathlib

/-!
Shallow embedding of the attendance-record lifecycle and aggregation code of
the TimeTrack employee-attendance app.

Modelling conventions:
* Timestamps (JS `Date` instants, ISO date-time strings) are integers counting
  seconds on a single timeline; `date-fns` `differenceInMinutes` truncates the
  millisecond difference toward zero, which on whole-second timestamps is
  truncating division of the second difference by 60.
* Calendar dates (ISO `YYYY-MM-DD` strings) are integer day indices on the same
  timeline; `new Date(dateStr)` is the instant `dayStart d = d * 86400`, and
  `getHours` of a timestamp is its hour of day (the model uses one time zone
  throughout; the spec declares time zones out of scope).
* `Number.toFixed(2)` / `Math.round` on the rationals produced by this code are
  modelled by exact rational rounding (half away from zero resp. half up).
  The rationals reaching them here are of the form `k/3` or `m/n` for small
  `n`, whose distance from any decimal half-way point vastly exceeds the
  IEEE-754 representation error, so the exact model agrees with the JS floats.
* Fallible handlers (`alert` + early `return`) are embedded as `Except`
  values; the enclosing save/update flow applies the optimistic update only on
  a successful result, exactly as the component calls `onUpdateRecord`.
-/

namespace TimeTrack

/-- Attendance status enumeration (`AttendanceStatus` in `types.ts`). -/
inductive AttendanceStatus where
  | present
  | absent
  | late
  | halfDay
  | onLeave
deriving DecidableEq, Repr

/-- `AttendanceRecord` of `types.ts`: `date` is a day index, `checkIn` /
`checkOut` optional timestamps in seconds, `durationHours` the stored decimal
hours. -/
structure AttendanceRecord where
  id : String
  employeeId : String
  date : ℤ
  checkIn : Option ℤ
  checkOut : Option ℤ
  status : AttendanceStatus
  durationHours : ℚ
deriving DecidableEq, Repr

/-- The instant at which calendar day `d` starts (`new Date('YYYY-MM-DD')`). -/
def dayStart (d : ℤ) : ℤ := d * 86400

/-- JS `Date.prototype.getHours`: hour of day of a timestamp. -/
def getHours (t : ℤ) : ℤ := (((t.emod 86400).toNat / 3600 : ℕ) : ℤ)

/-- Deterministic record id `` `${employeeId}-${date}` `` used by the
check-in and manual-entry paths. -/
def mkId (employeeId : String) (d : ℤ) : String :=
  employeeId ++ "-" ++ toString d

/-- `date-fns` `differenceInMinutes laterT earlierT`: whole minutes between two
instants, fractional minute truncated toward zero. -/
def differenceInMinutes (laterT earlierT : ℤ) : ℤ :=
  if 0 ≤ laterT - earlierT then (((laterT - earlierT).toNat / 60 : ℕ) : ℤ)
  else -((((earlierT - laterT).toNat / 60 : ℕ) : ℤ))

/-- `m / 60` rounded to two decimals, returned in centi-hours: the integer
nearest to `5*m/3` (exact halves cannot occur, so every rounding mode
agrees with JS `toFixed(2)` here). -/
def centiHours (m : ℤ) : ℤ :=
  if 0 ≤ m then (((5 * m.toNat + 1) / 3 : ℕ) : ℤ)
  else -((((5 * (-m).toNat + 1) / 3 : ℕ) : ℤ))

/-- `Number((m / 60).toFixed(2))` for a whole number of minutes `m`. -/
def toFixed2OfMinutes (m : ℤ) : ℚ := (centiHours m : ℚ) / 100

/-- JS `Math.round`: round half toward positive infinity. -/
def jsRound (q : ℚ) : ℤ := ⌊q + 1 / 2⌋

/-- `handleCheckIn` (EmployeeDashboard): builds today's fresh record with
`checkIn = now`, no check-out, zero duration, and status Late exactly when the
check-in hour is at least 10.  `todayD` is the component's `todayStr`, the
calendar day of `now`. -/
def handleCheckIn (user : String) (todayD : ℤ) (now : ℤ) : AttendanceRecord :=
  { id := mkId user todayD
    employeeId := user
    date := todayD
    checkIn := some now
    checkOut := none
    status := if 10 ≤ getHours now then .late else .present
    durationHours := 0 }

/-- `handleCheckOut` (EmployeeDashboard): `if (!todayRecord) return;` then the
missing check-in falls back to `now`, and the duration is the truncated minute
difference divided by 60, kept to two decimals. -/
def handleCheckOut (todayRecord : Option AttendanceRecord) (now : ℤ) :
    Option AttendanceRecord :=
  match todayRecord with
  | none => none
  | some r =>
    let checkInTime : ℤ := r.checkIn.getD now
    let diffMinutes : ℤ := differenceInMinutes now checkInTime
    some { r with checkOut := some now
                  durationHours := toFixed2OfMinutes diffMinutes }

/-- The optimistic half of `handleUpdateRecord` (App): replace the record with
a matching id, or append the new record. -/
def applyOptimistic (recs : List AttendanceRecord) (u : AttendanceRecord) :
    List AttendanceRecord :=
  if recs.any (fun r => r.id = u.id) then
    recs.map (fun r => if r.id = u.id then u else r)
  else recs ++ [u]

/-- Result of one `handleUpdateRecord` call: the local set after the
synchronous optimistic update, the error message surfaced by `alert` (if the
persistence call failed), and the number of persistence attempts made (the
handler issues exactly one `upsert`, in no loop). -/
structure UpdateOutcome where
  localSet : List AttendanceRecord
  surfaced : Option String
  persistAttempts : ℕ
deriving DecidableEq, Repr

/-- `handleUpdateRecord` (App): optimistic local update first, then a single
`upsert` whose outcome is `persistResult`; a failure is alerted, never rolled
back and never retried. -/
def handleUpdateRecord (recs : List AttendanceRecord) (u : AttendanceRecord)
    (persistResult : Except String Unit) : UpdateOutcome :=
  { localSet := applyOptimistic recs u
    surfaced := match persistResult with
      | .ok _ => none
      | .error e => some e
    persistAttempts := 1 }

/-- The optimistic half of `handleDeleteRecord` (App):
`prevRecords.filter(r => r.id !== recordId)`. -/
def handleDeleteRecord (recs : List AttendanceRecord) (recordId : String) :
    List AttendanceRecord :=
  recs.filter (fun r => ¬ r.id = recordId)

/-- `myRecords.find(r => r.date === todayStr)` over
`records.filter(r => r.employeeId === currentUser.id)`. -/
def todayRecordOf (recs : List AttendanceRecord) (user : String) (todayD : ℤ) :
    Option AttendanceRecord :=
  (recs.filter (fun r => r.employeeId = user)).find? (fun r => r.date = todayD)

/-- The check-in entry point as the component renders it: the Check In button
exists only when `!todayRecord` (LoginPage.tsx, Today's Status card), so the
flow is a no-op whenever any record for (employee, today) is in the local set,
and otherwise applies the optimistic update with the fresh record. -/
def guardedCheckIn (recs : List AttendanceRecord) (user : String)
    (todayD : ℤ) (now : ℤ) : List AttendanceRecord :=
  match todayRecordOf recs user todayD with
  | some _ => recs
  | none => applyOptimistic recs (handleCheckIn user todayD now)

/-- The rejection reasons of `handleSaveEdit`, one per `alert`-and-return (or
silent return) site, in source order. -/
inductive SaveError where
  | noTarget
  | futureDate
  | duplicateRecord
  | invalidTimeRange
deriving DecidableEq, Repr

/-- Shared body of `handleSaveEdit` after the edit-target guard: future-date
check, duplicate check (creation only), then duration/status from the supplied
inputs.  `theId` is `` isCreating ? `${user}-${date}` : editingRecord.id ``. -/
def saveCore (user : String) (recs : List AttendanceRecord) (isCreating : Bool)
    (theId : String) (fDate : ℤ) (fIn fOut : Option ℤ) (now : ℤ) :
    Except SaveError AttendanceRecord :=
  if dayStart fDate > now then .error .futureDate
  else if isCreating && recs.any (fun r => r.id = mkId user fDate) then
    .error .duplicateRecord
  else
    match fIn, fOut with
    | some s, some e =>
      if e < s then .error .invalidTimeRange
      else
        let diff : ℤ := differenceInMinutes e s
        .ok { id := theId
              employeeId := user
              date := fDate
              checkIn := some s
              checkOut := some e
              status := if 10 ≤ getHours s then .late else .present
              durationHours := if 0 < diff then toFixed2OfMinutes diff else 0 }
    | _, _ =>
      .ok { id := theId
            employeeId := user
            date := fDate
            checkIn := fIn
            checkOut := fOut
            status := .present
            durationHours := 0 }

/-- `handleSaveEdit` (EmployeeDashboard).  The `!editForm.date` early return
concerns only an empty date string, which the integral date model cannot
produce (in edit mode the field is seeded from the record and disabled), so it
is not represented. -/
def handleSaveEdit (user : String) (recs : List AttendanceRecord)
    (isCreating : Bool) (editingRecord : Option AttendanceRecord)
    (fDate : ℤ) (fIn fOut : Option ℤ) (now : ℤ) :
    Except SaveError AttendanceRecord :=
  match isCreating, editingRecord with
  | false, none => .error .noTarget
  | false, some r => saveCore user recs false r.id fDate fIn fOut now
  | true, _ => saveCore user recs true (mkId user fDate) fDate fIn fOut now

/-- The save flow as the modal runs it: on success the record is handed to
`onUpdateRecord` (optimistic update); on any rejection the local set is
untouched. -/
def saveEditFlow (user : String) (recs : List AttendanceRecord)
    (isCreating : Bool) (editingRecord : Option AttendanceRecord)
    (fDate : ℤ) (fIn fOut : Option ℤ) (now : ℤ) : List AttendanceRecord :=
  match handleSaveEdit user recs isCreating editingRecord fDate fIn fOut now with
  | .ok r => applyOptimistic recs r
  | .error _ => recs

/-- The decimal core of `calculateStats` (ManagerDashboard) and of the
`stats` memo (EmployeeDashboard); the surrounding display formatting
(`formatDuration`, `toFixed(1)`, `Math.round` of the total) is presentation. -/
structure Stats where
  totalHours : ℚ
  avgHours : ℚ
  attendanceRate : ℤ
  late : ℕ
  present : ℕ
deriving DecidableEq, Repr

/-- `calculateStats` (ManagerDashboard): filters for Present/Late counts, a
`reduce` sum of `durationHours`, guarded average, and
`Math.round(((present + late) / totalRecords) * 100)` guarded by
`totalRecords > 0`. -/
def calculateStats (recs : List AttendanceRecord) : Stats :=
  let totalRecords : ℕ := recs.length
  let present : ℕ := (recs.filter (fun r => r.status = .present)).length
  let late : ℕ := (recs.filter (fun r => r.status = .late)).length
  let totalHoursDecimal : ℚ :=
    recs.foldl (fun acc curr => acc + curr.durationHours) 0
  let avgHoursDecimal : ℚ :=
    if 0 < totalRecords then totalHoursDecimal / totalRecords else 0
  let attendanceRate : ℤ :=
    if 0 < totalRecords then
      jsRound (((present : ℚ) + (late : ℚ)) / (totalRecords : ℚ) * 100)
    else 0
  { totalHours := totalHoursDecimal
    avgHours := avgHoursDecimal
    attendanceRate := attendanceRate
    late := late
    present := present }

/-- One point of the manager chart series: a distinct date with its summed
hours and its Present/Late head-count. -/
structure ChartPoint where
  date : ℤ
  hours : ℚ
  present : ℕ
deriving DecidableEq, Repr

/-- `1` when the record counts as present for the chart
(`status === 'Present' || status === 'Late'`), else `0`. -/
def presInc (r : AttendanceRecord) : ℕ :=
  if r.status = .present ∨ r.status = .late then 1 else 0

/-- One step of the `dailyStats` accumulation: JS object keys preserve
insertion order, so a record with a known date updates its point in place and
a new date appends a point at the end. -/
def addToDaily (acc : List ChartPoint) (r : AttendanceRecord) :
    List ChartPoint :=
  if acc.any (fun p => p.date = r.date) then
    acc.map (fun p =>
      if p.date = r.date then
        { p with hours := p.hours + r.durationHours
                 present := p.present + presInc r }
      else p)
  else acc ++ [{ date := r.date, hours := r.durationHours, present := presInc r }]

/-- `chartData` (ManagerDashboard): group the (newest-first sorted) filtered
records by day, then `Object.values(dailyStats).reverse().slice(0, 14)`.
The source groups by the `'dd MMM'` label, injective on day indices within the
one-month windows this memo receives. -/
def chartData (sortedRecs : List AttendanceRecord) : List ChartPoint :=
  ((sortedRecs.foldl addToDaily []).reverse).take 14

/-- The spec's duration formula, for comparison with the code: elapsed time in
hours, rounded to two decimal places. -/
def specDuration2dp (s e : ℤ) : ℚ :=
  ((round (((e - s : ℤ) : ℚ) / 3600 * 100) : ℤ) : ℚ) / 100

/-- The amended duration formula the code implements: elapsed whole minutes
(fractional minute truncated), divided by 60, rounded to two decimal places. -/
def minuteTruncated2dp (s e : ℤ) : ℚ :=
  ((round ((((e - s).toNat / 60 : ℕ) : ℚ) * 100 / 60) : ℤ) : ℚ) / 100

/-! Helper lemmas shared by the claim theorems. -/

lemma centiHours_natCast (k : ℕ) :
    centiHours (k : ℤ) = (((5 * k + 1) / 3 : ℕ) : ℤ) := by
  simp [centiHours]

lemma centi_round (k : ℕ) :
    (((5 * k + 1) / 3 : ℕ) : ℤ) = round ((k : ℚ) * 100 / 60) := by
  rw [round_eq]
  have h6 : (k : ℚ) * 100 / 60 + 1 / 2 = ((10 * k + 3 : ℕ) : ℚ) / ((6 : ℕ) : ℚ) := by
    push_cast; ring
  rw [h6]
  have h0 : (0 : ℚ) ≤ ((10 * k + 3 : ℕ) : ℚ) / ((6 : ℕ) : ℚ) := by positivity
  rw [← Int.natCast_floor_eq_floor h0, Nat.floor_div_eq_div]
  congr 1
  omega

lemma toFixed2_eq_minuteTruncated {s e : ℤ} (h : s ≤ e) :
    toFixed2OfMinutes (differenceInMinutes e s) = minuteTruncated2dp s e := by
  have hn : (0 : ℤ) ≤ e - s := by omega
  rw [toFixed2OfMinutes, differenceInMinutes, if_pos hn, minuteTruncated2dp,
    centiHours_natCast, centi_round]

lemma minuteTruncated2dp_nonneg (s e : ℤ) : 0 ≤ minuteTruncated2dp s e := by
  have h : (0 : ℤ) ≤ round ((((e - s).toNat / 60 : ℕ) : ℚ) * 100 / 60) := by
    rw [round_eq]
    exact Int.floor_nonneg.mpr (by positivity)
  rw [minuteTruncated2dp]
  positivity

lemma minuteTruncated2dp_zero (t : ℤ) : minuteTruncated2dp t t = 0 := by
  simp [minuteTruncated2dp]

lemma mem_applyOptimistic (recs : List AttendanceRecord)
    (u : AttendanceRecord) : u ∈ applyOptimistic recs u := by
  rw [applyOptimistic]
  split
  · next h =>
    rcases List.any_eq_true.mp h with ⟨r, hr, hid⟩
    exact List.mem_map.mpr ⟨r, hr, by simp [of_decide_eq_true hid]⟩
  · exact List.mem_append.mpr (Or.inr (List.mem_singleton.mpr rfl))

lemma applyOptimistic_of_fresh (recs : List AttendanceRecord)
    (u : AttendanceRecord) (h : recs.any (fun r => r.id = u.id) = false) :
    applyOptimistic recs u = recs ++ [u] := by
  rw [applyOptimistic, if_neg]
  simp [h]

lemma foldl_add_durations (recs : List AttendanceRecord) (a : ℚ) :
    recs.foldl (fun acc curr => acc + curr.durationHours) a
      = a + (recs.map AttendanceRecord.durationHours).sum := by
  induction recs generalizing a with
  | nil => simp
  | cons r rest ih => simp [ih, add_assoc]

/-- Sample record used by concrete witness instantiations. -/
def wAbsent : AttendanceRecord :=
  { id := "a-1", employeeId := "a", date := 1, checkIn := none,
    checkOut := none, status := .absent, durationHours := 0 }

/-- Sample present record with 8 worked hours, for witnesses. -/
def wPresent : AttendanceRecord :=
  { id := "a-2", employeeId := "a", date := 2, checkIn := some (9 * 3600),
    checkOut := some (17 * 3600), status := .present, durationHours := 8 }

/-- C10: the optimistic delete removes exactly the records with the given id,
leaves the others unchanged in place, is a no-op (not an error) on an absent
id, and is idempotent. -/
theorem delete_record_spec (recs : List AttendanceRecord) (i : String) :
    (∀ r, r ∈ handleDeleteRecord recs i ↔ r ∈ recs ∧ r.id ≠ i)
    ∧ ((∀ r ∈ recs, r.id ≠ i) → handleDeleteRecord recs i = recs)
    ∧ handleDeleteRecord (handleDeleteRecord recs i) i
        = handleDeleteRecord recs i := by
  refine ⟨fun r => ?_, fun h => ?_, ?_⟩
  · simp [handleDeleteRecord, List.mem_filter]
  · rw [handleDeleteRecord, List.filter_eq_self.mpr]
    intro a ha
    simpa using h a ha
  · simp [handleDeleteRecord, List.filter_filter]

theorem delete_record_spec_witness :
    (∀ r ∈ [wAbsent], r.id ≠ "zz")
      ∧ handleDeleteRecord [wAbsent] "zz" = [wAbsent] := by
  have h := delete_record_spec [wAbsent] "zz"
  exact ⟨by decide, h.2.1 (by decide)⟩

/-- C5: the optimistic update lands in the local set independently of the
persistence outcome (no rollback), the mutated record is in the set, a
persistence failure is surfaced, and exactly one persistence attempt is
made (no retry). -/
theorem optimistic_update_no_rollback (recs : List AttendanceRecord)
    (u : AttendanceRecord) (pr : Except String Unit) :
    (handleUpdateRecord recs u pr).localSet = applyOptimistic recs u
    ∧ u ∈ (handleUpdateRecord recs u pr).localSet
    ∧ (handleUpdateRecord recs u pr).localSet
        = (handleUpdateRecord recs u (.ok ())).localSet
    ∧ (∀ e, pr = .error e → (handleUpdateRecord recs u pr).surfaced = some e)
    ∧ (handleUpdateRecord recs u pr).persistAttempts = 1 := by
  refine ⟨rfl, mem_applyOptimistic recs u, rfl, ?_, rfl⟩
  intro e he
  subst he
  rfl

theorem optimistic_update_no_rollback_witness :
    ((.error "boom" : Except String Unit) = .error "boom")
    ∧ wPresent ∈ (handleUpdateRecord [wAbsent] wPresent (.error "boom")).localSet
    ∧ (handleUpdateRecord [wAbsent] wPresent (.error "boom")).surfaced
        = some "boom"
    ∧ (handleUpdateRecord [wAbsent] wPresent (.error "boom")).persistAttempts
        = 1 := by
  have h := optimistic_update_no_rollback [wAbsent] wPresent (.error "boom")
  exact ⟨rfl, h.2.1, h.2.2.2.1 "boom" rfl, h.2.2.2.2⟩

/-- C6: total hours is the sum of `durationHours`, the average is total over
count when the count is positive and 0 otherwise, the attendance rate is
`round(100 * (present + late) / count)` when the count is positive and 0
otherwise, and the empty set yields 0 total and 0 rate with no division by
zero. -/
theorem calculateStats_spec (recs : List AttendanceRecord) :
    (calculateStats recs).totalHours
      = (recs.map AttendanceRecord.durationHours).sum
    ∧ (0 < recs.length →
        (calculateStats recs).avgHours
          = (calculateStats recs).totalHours / (recs.length : ℚ))
    ∧ (recs.length = 0 → (calculateStats recs).avgHours = 0)
    ∧ (0 < recs.length →
        (calculateStats recs).attendanceRate
          = jsRound (100 * (((recs.countP (fun r => r.status = .present)
              + recs.countP (fun r => r.status = .late) : ℕ)) : ℚ)
              / (recs.length : ℚ)))
    ∧ (recs = [] → (calculateStats recs).totalHours = 0
        ∧ (calculateStats recs).attendanceRate = 0) := by
  refine ⟨?_, fun h => ?_, fun h => ?_, fun h => ?_, fun h => ?_⟩
  · simpa using foldl_add_durations recs 0
  · simp only [calculateStats, if_pos h]
  · simp only [calculateStats, h]
    norm_num
  · simp only [calculateStats, if_pos h]
    congr 1
    rw [List.countP_eq_length_filter, List.countP_eq_length_filter]
    push_cast
    ring
  · subst h
    exact ⟨rfl, rfl⟩

theorem calculateStats_spec_witness :
    (0 < [wPresent, wAbsent].length)
    ∧ (calculateStats [wPresent, wAbsent]).avgHours
        = (calculateStats [wPresent, wAbsent]).totalHours
          / ([wPresent, wAbsent].length : ℚ)
    ∧ (calculateStats [wPresent, wAbsent]).attendanceRate
        = jsRound (100 * ((([wPresent, wAbsent].countP
              (fun r => r.status = .present)
            + [wPresent, wAbsent].countP (fun r => r.status = .late) : ℕ)) : ℚ)
            / ([wPresent, wAbsent].length : ℚ)) := by
  have h := calculateStats_spec [wPresent, wAbsent]
  exact ⟨by decide, h.2.1 (by decide), h.2.2.2.1 (by decide)⟩

lemma saveCore_range_ne_ok {user : String} {recs : List AttendanceRecord}
    {c : Bool} {theId : String} {fDate s e now : ℤ} (hlt : e < s) :
    ∀ r, saveCore user recs c theId fDate (some s) (some e) now ≠ .ok r := by
  intro r h
  rw [saveCore] at h
  split at h
  · exact Except.noConfusion h
  · split at h
    · exact Except.noConfusion h
    · exact Except.noConfusion h


lemma handleSaveEdit_range_ne_ok {user : String} {recs : List AttendanceRecord}
    {c : Bool} {target : Option AttendanceRecord} {fDate s e now : ℤ}
    (hlt : e < s) :
    ∀ r, handleSaveEdit user recs c target fDate (some s) (some e) now
      ≠ .ok r := by
  intro r
  cases c <;> cases target <;>
    simp only [handleSaveEdit] <;>
    first
      | exact fun h => Except.noConfusion h
      | exact saveCore_range_ne_ok hlt r

lemma saveEditFlow_of_ne_ok {user : String} {recs : List AttendanceRecord}
    {c : Bool} {target : Option AttendanceRecord} {fDate : ℤ}
    {fIn fOut : Option ℤ} {now : ℤ}
    (h : ∀ r, handleSaveEdit user recs c target fDate fIn fOut now ≠ .ok r) :
    saveEditFlow user recs c target fDate fIn fOut now = recs := by
  rw [saveEditFlow]
  split
  · next r heq => exact absurd heq (h r)
  · rfl

/-- C4: a manual upsert supplying both timestamps with checkOut before checkIn
never reaches the optimistic update: the local set is unchanged, the result is
never a record, and when the earlier validations pass (date not future, and,
when creating, no duplicate) the rejection reason is `InvalidTimeRangeError`. -/
theorem invalid_range_rejected (user : String) (recs : List AttendanceRecord)
    (isCreating : Bool) (target : Option AttendanceRecord) (fDate s e now : ℤ)
    (hlt : e < s) :
    saveEditFlow user recs isCreating target fDate (some s) (some e) now = recs
    ∧ (∀ r, handleSaveEdit user recs isCreating target fDate (some s) (some e)
        now ≠ .ok r)
    ∧ (isCreating = true → ¬ dayStart fDate > now →
        recs.any (fun r => r.id = mkId user fDate) = false →
        handleSaveEdit user recs isCreating target fDate (some s) (some e) now
          = .error .invalidTimeRange)
    ∧ (∀ t, isCreating = false → target = some t → ¬ dayStart fDate > now →
        handleSaveEdit user recs isCreating target fDate (some s) (some e) now
          = .error .invalidTimeRange) := by
  refine ⟨saveEditFlow_of_ne_ok (handleSaveEdit_range_ne_ok hlt),
    handleSaveEdit_range_ne_ok hlt, fun hc h1 h2 => ?_, fun t hc ht h1 => ?_⟩
  · subst hc
    rw [handleSaveEdit, saveCore, if_neg h1, if_neg (by simp [h2]), if_pos hlt]
  · subst hc
    subst ht
    rw [handleSaveEdit, saveCore, if_neg h1, if_neg (by simp), if_pos hlt]

theorem invalid_range_rejected_witness :
    ((3600 : ℤ) < 7200)
    ∧ saveEditFlow "e" [] true none 0 (some 7200) (some 3600) 50000 = []
    ∧ handleSaveEdit "e" [] true none 0 (some 7200) (some 3600) 50000
        = .error .invalidTimeRange := by
  have h := invalid_range_rejected "e" [] true none 0 7200 3600 50000
    (by norm_num)
  exact ⟨by norm_num, h.1,
    h.2.2.1 rfl (by norm_num [dayStart]) (by decide)⟩

lemma saveCore_ok_of_valid (user : String) (recs : List AttendanceRecord)
    (theId : String) (fDate : ℤ) (fIn fOut : Option ℤ) (now : ℤ)
    (h1 : ¬ dayStart fDate > now)
    (h2 : recs.any (fun r => r.id = mkId user fDate) = false)
    (h3 : ∀ s e, fIn = some s → fOut = some e → s ≤ e) :
    ∃ r, saveCore user recs true theId fDate fIn fOut now = .ok r
      ∧ r.id = theId ∧ r.employeeId = user ∧ r.date = fDate := by
  cases fIn with
  | none =>
    cases fOut with
    | none =>
      simp only [saveCore]
      rw [if_neg h1, if_neg (by simp [h2])]
      exact ⟨_, rfl, rfl, rfl, rfl⟩
    | some e =>
      simp only [saveCore]
      rw [if_neg h1, if_neg (by simp [h2])]
      exact ⟨_, rfl, rfl, rfl, rfl⟩
  | some s =>
    cases fOut with
    | none =>
      simp only [saveCore]
      rw [if_neg h1, if_neg (by simp [h2])]
      exact ⟨_, rfl, rfl, rfl, rfl⟩
    | some e =>
      simp only [saveCore]
      rw [if_neg h1, if_neg (by simp [h2]),
        if_neg (not_lt.mpr (h3 s e rfl rfl))]
      exact ⟨_, rfl, rfl, rfl, rfl⟩

/-- C8: a manual entry dated strictly after the actor's current day is
rejected with `FutureDateError` and creates nothing, while a manual entry
dated inside the previous calendar month (month bounds satisfying
`pStart ≤ date < mStart ≤ today`) that passes the duplicate and time-range
validations succeeds and appends a record for that employee and date. -/
theorem manual_entry_date_window :
    (∀ (user : String) (recs : List AttendanceRecord)
        (target : Option AttendanceRecord) (fDate : ℤ) (fIn fOut : Option ℤ)
        (today now : ℤ),
      today * 86400 ≤ now → now < (today + 1) * 86400 → today < fDate →
      handleSaveEdit user recs true target fDate fIn fOut now
          = .error .futureDate
        ∧ saveEditFlow user recs true target fDate fIn fOut now = recs)
    ∧ (∀ (user : String) (recs : List AttendanceRecord)
        (target : Option AttendanceRecord) (fDate : ℤ) (fIn fOut : Option ℤ)
        (pStart mStart today now : ℤ),
      pStart ≤ fDate → fDate < mStart → mStart ≤ today →
      today * 86400 ≤ now →
      recs.any (fun r => r.id = mkId user fDate) = false →
      (∀ s e, fIn = some s → fOut = some e → s ≤ e) →
      ∃ r, handleSaveEdit user recs true target fDate fIn fOut now = .ok r
        ∧ saveEditFlow user recs true target fDate fIn fOut now = recs ++ [r]
        ∧ r.employeeId = user ∧ r.date = fDate ∧ r.id = mkId user fDate) := by
  constructor
  · intro user recs target fDate fIn fOut today now hlo hhi hfut
    have hgt : dayStart fDate > now := by
      rw [dayStart]
      nlinarith
    have hres : handleSaveEdit user recs true target fDate fIn fOut now
        = .error .futureDate := by
      cases target <;> cases fIn <;> cases fOut <;>
        · simp only [handleSaveEdit, saveCore]
          rw [if_pos hgt]
    refine ⟨hres, ?_⟩
    rw [saveEditFlow, hres]
  · intro user recs target fDate fIn fOut pStart mStart today now
      hp hm ht hn hdup hrange
    have hle : ¬ dayStart fDate > now := by
      rw [dayStart]
      push_neg
      nlinarith
    obtain ⟨r, hr, hrid, hremp, hrdate⟩ :=
      saveCore_ok_of_valid user recs
        (mkId user fDate) fDate fIn fOut now hle hdup hrange
    have hres : handleSaveEdit user recs true target fDate fIn fOut now
        = .ok r := by
      cases target <;> · rw [handleSaveEdit]; exact hr
    refine ⟨r, hres, ?_, hremp, hrdate, hrid⟩
    rw [saveEditFlow, hres]
    show applyOptimistic recs r = recs ++ [r]
    refine applyOptimistic_of_fresh recs r ?_
    rw [hrid]
    exact hdup

theorem manual_entry_date_window_witness :
    ((1 : ℤ) * 86400 ≤ 86400 ∧ (86400 : ℤ) < (1 + 1) * 86400 ∧ (1 : ℤ) < 2
      ∧ handleSaveEdit "e" [] true none 2 none none 86400
          = .error .futureDate)
    ∧ ((0 : ℤ) ≤ 28 ∧ (28 : ℤ) < 31 ∧ (31 : ℤ) ≤ 35
      ∧ ([] : List AttendanceRecord).any (fun r => r.id = mkId "e" 28) = false
      ∧ ∃ r, handleSaveEdit "e" [] true none 28 none none 3024000 = .ok r
          ∧ saveEditFlow "e" [] true none 28 none none 3024000 = [] ++ [r]
          ∧ r.employeeId = "e" ∧ r.date = 28 ∧ r.id = mkId "e" 28) := by
  constructor
  · exact ⟨by norm_num, by norm_num, by norm_num,
      (manual_entry_date_window.1 "e" [] none 2 none none 1 86400
        (by norm_num) (by norm_num) (by norm_num)).1⟩
  · exact ⟨by norm_num, by norm_num, by norm_num, by decide,
      manual_entry_date_window.2 "e" [] none 28 none none 0 31 35 3024000
        (by norm_num) (by norm_num) (by norm_num) (by norm_num) (by decide)
        (fun s e hs he => Option.noConfusion hs)⟩

/-- A record that exists without a check-in (as a partial manual entry
leaves it), used to refute claim C9 as stated. -/
def rNoCheckIn : AttendanceRecord :=
  { id := "e-0", employeeId := "e", date := 0, checkIn := none,
    checkOut := none, status := .present, durationHours := 0 }

/-- C9 counterexample: checking out a record whose checkIn is null does not
fail; the code substitutes `now` for the missing check-in and stores
`checkOut = now` with zero duration, contradicting the claimed
`NotCheckedInError` rejection that would leave checkOut unset. -/
theorem checkout_without_checkin_counterexample :
    rNoCheckIn.checkIn = none
    ∧ (handleCheckOut (some rNoCheckIn) 1000).map AttendanceRecord.checkOut
        = some (some 1000)
    ∧ (handleCheckOut (some rNoCheckIn) 1000) ≠ none := by
  refine ⟨rfl, rfl, ?_⟩
  intro h
  exact Option.noConfusion h

/-- C9 amended: check-out on a record with null checkIn does not fail with
`NotCheckedInError`; it treats the missing check-in as `now`, producing the
same record with `checkOut = now` and `durationHours = 0`. -/
theorem checkout_without_checkin_sets_now (r : AttendanceRecord) (now : ℤ)
    (h : r.checkIn = none) :
    handleCheckOut (some r) now
      = some { r with checkOut := some now, durationHours := 0 } := by
  rw [handleCheckOut]
  have h0 : toFixed2OfMinutes (differenceInMinutes now (r.checkIn.getD now))
      = 0 := by
    rw [h]
    simp [differenceInMinutes, toFixed2OfMinutes, centiHours, Option.getD]
  rw [h0]

theorem checkout_without_checkin_sets_now_witness :
    rNoCheckIn.checkIn = none
    ∧ handleCheckOut (some rNoCheckIn) 1000
        = some { rNoCheckIn with checkOut := some 1000, durationHours := 0 } :=
  ⟨rfl, checkout_without_checkin_sets_now rNoCheckIn 1000 rfl⟩

/-- Today's record already holding a check-in, used to refute claim C3 as
stated. -/
def rChecked : AttendanceRecord :=
  { id := mkId "e" 0, employeeId := "e", date := 0, checkIn := some 30000,
    checkOut := none, status := .present, durationHours := 0 }

/-- C3 counterexample: with a record for (employee, today) holding a non-null
checkIn already in the local set, invoking the check-in handler again does not
fail with any error — the optimistic upsert replaces the original record
(same deterministic id), so the original is not left unchanged. -/
theorem second_checkin_overwrites_counterexample :
    rChecked.checkIn = some 30000
    ∧ (handleUpdateRecord [rChecked] (handleCheckIn "e" 0 40000)
        (.ok ())).localSet = [handleCheckIn "e" 0 40000]
    ∧ (handleCheckIn "e" 0 40000).checkIn ≠ rChecked.checkIn
    ∧ (handleUpdateRecord [rChecked] (handleCheckIn "e" 0 40000)
        (.ok ())).localSet ≠ [rChecked] := by
  refine ⟨rfl, ?_, by decide, ?_⟩
  · show applyOptimistic [rChecked] (handleCheckIn "e" 0 40000) = _
    rw [applyOptimistic, if_pos (by decide)]
    rfl
  · intro h
    have : applyOptimistic [rChecked] (handleCheckIn "e" 0 40000)
        = [rChecked] := h
    rw [applyOptimistic, if_pos (by decide)] at this
    have h2 : handleCheckIn "e" 0 40000 = rChecked := by
      have := List.cons.injEq (handleCheckIn "e" 0 40000) []
        rChecked [] ▸ this
      simpa using this
    exact absurd (congrArg AttendanceRecord.checkIn h2) (by decide)

/-- C3 amended: the app prevents a second same-day check-in by not offering
the action — the Check In button is rendered only when no record for
(employee, today) exists — so when the local set holds a record for
(employeeId, today) (in particular one with non-null checkIn), the guarded
check-in flow returns the set unchanged; no `DuplicateRecordError` (or any
error) is raised, and the raw handler would overwrite the record instead. -/
theorem guarded_checkin_noop (recs : List AttendanceRecord) (user : String)
    (todayD now : ℤ) (r : AttendanceRecord) (hmem : r ∈ recs)
    (hemp : r.employeeId = user) (hdate : r.date = todayD) :
    guardedCheckIn recs user todayD now = recs := by
  have hsome : (todayRecordOf recs user todayD).isSome := by
    rw [todayRecordOf, List.find?_isSome]
    refine ⟨r, List.mem_filter.mpr ⟨hmem, by simp [hemp]⟩, by simp [hdate]⟩
  rw [guardedCheckIn]
  rcases hopt : todayRecordOf recs user todayD with _ | v
  · rw [hopt] at hsome
    exact absurd hsome (by simp)
  · rfl

theorem guarded_checkin_noop_witness :
    rChecked ∈ [rChecked] ∧ rChecked.employeeId = "e" ∧ rChecked.date = 0
    ∧ guardedCheckIn [rChecked] "e" 0 40000 = [rChecked] :=
  ⟨by decide, rfl, rfl,
    guarded_checkin_noop [rChecked] "e" 0 40000 rChecked (by decide) rfl rfl⟩

lemma saveCore_ok_both_inv {user : String} {recs : List AttendanceRecord}
    {c : Bool} {theId : String} {fDate s e now : ℤ} {r : AttendanceRecord}
    (h : saveCore user recs c theId fDate (some s) (some e) now = .ok r) :
    ¬ e < s
    ∧ r = { id := theId, employeeId := user, date := fDate, checkIn := some s,
            checkOut := some e,
            status := if 10 ≤ getHours s then .late else .present,
            durationHours :=
              if 0 < differenceInMinutes e s then
                toFixed2OfMinutes (differenceInMinutes e s)
              else 0 } := by
  rw [saveCore] at h
  split at h
  · exact Except.noConfusion h
  · split at h
    · exact Except.noConfusion h
    · split at h
      · exact Except.noConfusion h
      · next hns =>
        refine ⟨hns, ?_⟩
        injection h with h'
        exact h'.symm

lemma saveCore_ok_partial_inv {user : String} {recs : List AttendanceRecord}
    {c : Bool} {theId : String} {fDate : ℤ} {fIn fOut : Option ℤ} {now : ℤ}
    {r : AttendanceRecord} (hp : fIn = none ∨ fOut = none)
    (h : saveCore user recs c theId fDate fIn fOut now = .ok r) :
    r = { id := theId, employeeId := user, date := fDate, checkIn := fIn,
          checkOut := fOut, status := .present, durationHours := 0 } := by
  cases fIn with
  | none =>
    cases fOut with
    | none =>
      simp only [saveCore] at h
      split at h
      · exact Except.noConfusion h
      · split at h
        · exact Except.noConfusion h
        · injection h with h'
          exact h'.symm
    | some e =>
      simp only [saveCore] at h
      split at h
      · exact Except.noConfusion h
      · split at h
        · exact Except.noConfusion h
        · injection h with h'
          exact h'.symm
  | some s =>
    cases fOut with
    | none =>
      simp only [saveCore] at h
      split at h
      · exact Except.noConfusion h
      · split at h
        · exact Except.noConfusion h
        · injection h with h'
          exact h'.symm
    | some e =>
      rcases hp with hp | hp <;> exact Option.noConfusion hp

lemma handleSaveEdit_ok_core {user : String} {recs : List AttendanceRecord}
    {c : Bool} {target : Option AttendanceRecord} {fDate : ℤ}
    {fIn fOut : Option ℤ} {now : ℤ} {r : AttendanceRecord}
    (h : handleSaveEdit user recs c target fDate fIn fOut now = .ok r) :
    ∃ theId, saveCore user recs c theId fDate fIn fOut now = .ok r := by
  cases c with
  | false =>
    cases target with
    | none =>
      rw [handleSaveEdit] at h
      exact Except.noConfusion h
    | some t =>
      rw [handleSaveEdit] at h
      exact ⟨t.id, h⟩
  | true =>
    rw [handleSaveEdit] at h
    exact ⟨mkId user fDate, h⟩

/-- C2 counterexample: a manual entry whose checkIn is at 11:00 (hour 11,
past the 10 o'clock threshold) but whose checkOut is absent is stored as
Present, not Late — the manual path only classifies lateness when both
timestamps are supplied. -/
theorem manual_status_no_checkout_counterexample :
    (10 : ℤ) ≤ getHours 39600
    ∧ (handleSaveEdit "e" [] true none 0 (some 39600) none 40000).toOption.map
        AttendanceRecord.status = some .present
    ∧ AttendanceStatus.present ≠ .late := by
  refine ⟨by decide, rfl, by decide⟩

/-- C2 amended: the automatic check-in stores Late exactly when the check-in
hour is at least 10 (Present otherwise); the manual path stores Late exactly
when both checkIn and checkOut are supplied and the checkIn hour is at least
10, and always stores Present when either timestamp is absent. -/
theorem status_classification_amended :
    (∀ (user : String) (todayD now : ℤ),
      ((handleCheckIn user todayD now).status = .late ↔ 10 ≤ getHours now)
      ∧ ((handleCheckIn user todayD now).status = .present
          ↔ getHours now < 10))
    ∧ (∀ (user : String) (recs : List AttendanceRecord) (c : Bool)
        (target : Option AttendanceRecord) (fDate s e now : ℤ)
        (r : AttendanceRecord),
        handleSaveEdit user recs c target fDate (some s) (some e) now
          = .ok r →
        (r.status = .late ↔ 10 ≤ getHours s)
        ∧ (r.status = .present ↔ getHours s < 10))
    ∧ (∀ (user : String) (recs : List AttendanceRecord) (c : Bool)
        (target : Option AttendanceRecord) (fDate : ℤ) (fIn fOut : Option ℤ)
        (now : ℤ) (r : AttendanceRecord),
        (fIn = none ∨ fOut = none) →
        handleSaveEdit user recs c target fDate fIn fOut now = .ok r →
        r.status = .present) := by
  refine ⟨fun user todayD now => ?_, ?_, ?_⟩
  · by_cases h10 : 10 ≤ getHours now
    · constructor
      · exact ⟨fun _ => h10, fun _ => by simp [handleCheckIn, if_pos h10]⟩
      · constructor
        · intro hp
          rw [handleCheckIn] at hp
          simp only [if_pos h10] at hp
          exact absurd hp (by decide)
        · intro hlt
          exact absurd h10 (not_le.mpr hlt)
    · constructor
      · constructor
        · intro hp
          rw [handleCheckIn] at hp
          simp only [if_neg h10] at hp
          exact absurd hp (by decide)
        · intro hge
          exact absurd hge h10
      · exact ⟨fun _ => not_le.mp h10,
          fun _ => by simp [handleCheckIn, if_neg h10]⟩
  · intro user recs c target fDate s e now r h
    obtain ⟨theId, hcore⟩ := handleSaveEdit_ok_core h
    obtain ⟨-, hr⟩ := saveCore_ok_both_inv hcore
    subst hr
    by_cases h10 : 10 ≤ getHours s
    · simp only [if_pos h10]
      exact ⟨iff_of_true (by trivial) h10,
        iff_of_false (by decide) (not_lt.mpr h10)⟩
    · simp only [if_neg h10]
      exact ⟨iff_of_false (by decide) h10,
        iff_of_true (by trivial) (not_le.mp h10)⟩
  · intro user recs c target fDate fIn fOut now r hp h
    obtain ⟨theId, hcore⟩ := handleSaveEdit_ok_core h
    rw [saveCore_ok_partial_inv hp hcore]

theorem status_classification_amended_witness :
    ((handleCheckIn "e" 0 37800).status = .late ∧ (10 : ℤ) ≤ getHours 37800)
    ∧ (handleSaveEdit "e" [] true none 0 (some 37800) (some 41400) 50000
          = .ok { id := mkId "e" 0, employeeId := "e", date := 0,
                  checkIn := some 37800, checkOut := some 41400,
                  status := .late,
                  durationHours := toFixed2OfMinutes 60 }
        ∧ (10 : ℤ) ≤ getHours 37800)
    ∧ ((some (39600 : ℤ) = none ∨ (none : Option ℤ) = none)
        ∧ ({ id := mkId "e" 0, employeeId := "e", date := 0,
             checkIn := some 39600, checkOut := none, status := .present,
             durationHours := 0 } : AttendanceRecord).status = .present) := by
  have hboth := status_classification_amended.2.1 "e" [] true none 0
    37800 41400 50000
    { id := mkId "e" 0, employeeId := "e", date := 0, checkIn := some 37800,
      checkOut := some 41400, status := .late,
      durationHours := toFixed2OfMinutes 60 } (by rfl)
  have hpart := status_classification_amended.2.2 "e" [] true none 0
    (some 39600) none 40000
    { id := mkId "e" 0, employeeId := "e", date := 0, checkIn := some 39600,
      checkOut := none, status := .present, durationHours := 0 }
    (Or.inr rfl) (by rfl)
  refine ⟨⟨?_, by decide⟩, ⟨by rfl, hboth.1.mp rfl⟩, ⟨Or.inr rfl, hpart⟩⟩
  exact ((status_classification_amended.1 "e" 0 37800).1).mpr (by decide)

lemma differenceInMinutes_nonneg {s e : ℤ} (h : s ≤ e) :
    0 ≤ differenceInMinutes e s := by
  rw [differenceInMinutes, if_pos (by omega)]
  positivity

lemma toFixed2_guard_eq {s e : ℤ} (h : s ≤ e) :
    (if 0 < differenceInMinutes e s then
        toFixed2OfMinutes (differenceInMinutes e s)
      else 0)
      = minuteTruncated2dp s e := by
  by_cases hd : 0 < differenceInMinutes e s
  · rw [if_pos hd, toFixed2_eq_minuteTruncated h]
  · rw [if_neg hd, ← toFixed2_eq_minuteTruncated h]
    have h0 : differenceInMinutes e s = 0 := by
      have := differenceInMinutes_nonneg h
      omega
    rw [h0]
    norm_num [toFixed2OfMinutes, centiHours]

/-- C1 counterexample: a check-out 100 seconds after check-in stores
`durationHours = 0.02` (1 whole minute, divided by 60, rounded), while the
elapsed time in hours rounded to two decimals is 0.03 — the code truncates to
whole minutes before rounding, so the claim's formula does not match. -/
theorem duration_rounding_counterexample :
    rChecked.checkIn = some 30000 ∧ (30000 : ℤ) ≤ 30100
    ∧ (handleCheckOut (some rChecked) 30100).map AttendanceRecord.durationHours
        = some (2 / 100)
    ∧ specDuration2dp 30000 30100 = 3 / 100
    ∧ (2 / 100 : ℚ) ≠ 3 / 100 := by
  refine ⟨rfl, by norm_num, ?_, ?_, by norm_num⟩
  · norm_num [handleCheckOut, rChecked, differenceInMinutes,
      toFixed2OfMinutes, centiHours]
  · rw [specDuration2dp]
    have hr : round (((30100 - 30000 : ℤ) : ℚ) / 3600 * 100) = 3 := by
      rw [round_eq]
      norm_num [Int.floor_eq_iff]
    rw [hr]
    norm_num

/-- C1 amended: for records produced by check-out or by manual upsert with
both timestamps present and checkOut at or after checkIn, `durationHours` is
the elapsed whole minutes (fractional minute truncated) divided by 60,
rounded to two decimal places, and is never negative; when either timestamp
is absent the stored duration is 0. -/
theorem durationHours_minute_truncated :
    (∀ (r : AttendanceRecord) (s now : ℤ), r.checkIn = some s → s ≤ now →
      (handleCheckOut (some r) now).map AttendanceRecord.durationHours
          = some (minuteTruncated2dp s now)
        ∧ 0 ≤ minuteTruncated2dp s now)
    ∧ (∀ (r : AttendanceRecord) (now : ℤ), r.checkIn = none →
        (handleCheckOut (some r) now).map AttendanceRecord.durationHours
          = some 0)
    ∧ (∀ (user : String) (recs : List AttendanceRecord) (c : Bool)
        (target : Option AttendanceRecord) (fDate s e now : ℤ)
        (r : AttendanceRecord),
        handleSaveEdit user recs c target fDate (some s) (some e) now
          = .ok r →
        s ≤ e →
        r.durationHours = minuteTruncated2dp s e ∧ 0 ≤ r.durationHours)
    ∧ (∀ (user : String) (recs : List AttendanceRecord) (c : Bool)
        (target : Option AttendanceRecord) (fDate : ℤ) (fIn fOut : Option ℤ)
        (now : ℤ) (r : AttendanceRecord),
        (fIn = none ∨ fOut = none) →
        handleSaveEdit user recs c target fDate fIn fOut now = .ok r →
        r.durationHours = 0) := by
  refine ⟨fun r s now hin hle => ?_, fun r now hin => ?_, ?_, ?_⟩
  · rw [handleCheckOut, hin]
    refine ⟨?_, minuteTruncated2dp_nonneg s now⟩
    show some (toFixed2OfMinutes (differenceInMinutes now s))
      = some (minuteTruncated2dp s now)
    rw [toFixed2_eq_minuteTruncated hle]
  · rw [handleCheckOut, hin]
    show some (toFixed2OfMinutes (differenceInMinutes now now)) = some 0
    rw [show differenceInMinutes now now = 0 by
      rw [differenceInMinutes]
      norm_num]
    norm_num [toFixed2OfMinutes, centiHours]
  · intro user recs c target fDate s e now r h hle
    obtain ⟨theId, hcore⟩ := handleSaveEdit_ok_core h
    obtain ⟨-, hr⟩ := saveCore_ok_both_inv hcore
    subst hr
    constructor
    · show (if 0 < differenceInMinutes e s then
          toFixed2OfMinutes (differenceInMinutes e s) else 0)
        = minuteTruncated2dp s e
      exact toFixed2_guard_eq hle
    · show 0 ≤ (if 0 < differenceInMinutes e s then
          toFixed2OfMinutes (differenceInMinutes e s) else 0)
      rw [toFixed2_guard_eq hle]
      exact minuteTruncated2dp_nonneg s e
  · intro user recs c target fDate fIn fOut now r hp h
    obtain ⟨theId, hcore⟩ := handleSaveEdit_ok_core h
    rw [saveCore_ok_partial_inv hp hcore]

theorem durationHours_minute_truncated_witness :
    (rChecked.checkIn = some 30000 ∧ (30000 : ℤ) ≤ 33600
      ∧ (handleCheckOut (some rChecked) 33600).map
          AttendanceRecord.durationHours = some (minuteTruncated2dp 30000 33600)
      ∧ 0 ≤ minuteTruncated2dp 30000 33600)
    ∧ (rNoCheckIn.checkIn = none
      ∧ (handleCheckOut (some rNoCheckIn) 33600).map
          AttendanceRecord.durationHours = some 0)
    ∧ ((some (39600 : ℤ) = none ∨ (none : Option ℤ) = none)
      ∧ ({ id := mkId "e" 0, employeeId := "e", date := 0,
           checkIn := some 39600, checkOut := none, status := .present,
           durationHours := 0 } : AttendanceRecord).durationHours = 0) := by
  obtain ⟨hmap, hnn⟩ := durationHours_minute_truncated.1 rChecked 30000 33600
    rfl (by norm_num)
  refine ⟨⟨rfl, by norm_num, hmap, hnn⟩,
    ⟨rfl, durationHours_minute_truncated.2.1 rNoCheckIn 33600 rfl⟩,
    ⟨Or.inr rfl, ?_⟩⟩
  exact durationHours_minute_truncated.2.2.2 "e" [] true none 0
    (some 39600) none 40000 _ (Or.inr rfl) (by rfl)

/-- One present record on day `d` with one worked hour, for the chart-cap
failing input. -/
def exRec (d : ℤ) : AttendanceRecord :=
  { id := "e" ++ toString d, employeeId := "e", date := d, checkIn := none,
    checkOut := none, status := .present, durationHours := 1 }

/-- Fifteen records on the fifteen distinct days 15, 14, …, 1, sorted
newest-first exactly as `filteredRecords` delivers them to the chart memo. -/
def ex15 : List AttendanceRecord :=
  (List.range 15).map (fun i => exRec (15 - (i : ℤ)))

/-- C7 failing input, evaluated: with 15 distinct active dates (sorted
newest-first), `chartData` keeps the 14 oldest dates 1..14 and drops the most
recent date 15, although the code's own comment says `Last 14 active days`
and the spec asks for the 14 most recent. -/
theorem chart_cap_drops_most_recent :
    ex15.length = 15
    ∧ (chartData ex15).map ChartPoint.date
        = (List.range 14).map (fun i => (i : ℤ) + 1)
    ∧ (15 : ℤ) ∉ (chartData ex15).map ChartPoint.date
    ∧ (15 : ℤ) ∈ ex15.map AttendanceRecord.date := by
  refine ⟨by decide, by decide, by decide, by decide⟩

end TimeTrack
